import Mathlib

/-!
A shallow embedding of the `git-pm` task tracker core (`src/index.rs`,
`src/error.rs`) together with proofs about its data model and operations.

Modelling conventions:
* machine integers (`u64`) are modelled as `Nat`;
* timestamps (`chrono::DateTime<Utc>`) are abstracted to `Nat` and threaded
  in explicitly as a `now` argument where the source calls `Utc::now()`;
* the filesystem visible to the index/detail stores is a small explicit
  state (`FS`): the content of the canonical index file (the serialized
  `Index`, modelled by the `Index` value itself) and the set of task ids
  whose detail file exists;
* fallible operations return `Except`; `eyre::Report` errors are modelled
  as strings, the typed `PmError` from `error.rs` as its own inductive.
-/

namespace GitPm

/-- The `Status` enum of `src/index.rs`. -/
inductive Status where
  | None
  | Todo
  | Doing
  | Done
  deriving DecidableEq

/-- A recorded status transition (`Change` in `src/index.rs`); the `on`
timestamp is abstracted to `Nat`. `from`, `to` and `on` are Lean keywords,
hence the guillemets. -/
structure Change where
  «from» : Status
  «to» : Status
  «on» : Nat
  deriving DecidableEq

/-- An index entry (`Task` in `src/index.rs`). -/
structure Task where
  id : Nat
  status : Status
  changes : List Change
  priority : Option Nat
  deriving DecidableEq

/-- Project metadata (`Meta` in `src/index.rs`). -/
structure Meta where
  name : String
  deriving DecidableEq

/-- The root persisted aggregate (`Index` in `src/index.rs`). -/
structure Index where
  meta : Meta
  tasks : List Task
  deriving DecidableEq

/-- The typed error enum of `src/error.rs`. -/
inductive PmError where
  | IndexExists
  deriving DecidableEq

/-- Errors surfaced by the registry: either the typed `PmError` or an
`eyre`-style message error. -/
inductive AppError where
  | pm (e : PmError)
  | eyre (msg : String)
  deriving DecidableEq

/-- The slice of filesystem state the index/detail stores touch: the
canonical index file (if present, holding a serialized `Index`) and the
set of task ids whose detail file `pm/tasks/{id}.md` exists. -/
structure FS where
  indexFile : Option Index
  details : List Nat
  deriving DecidableEq

/-- The per-task detail document (`TaskDetail` in `src/index.rs`). -/
structure TaskDetail where
  id : Nat
  summary : String
  description : String
  tags : List String
  deriving DecidableEq

/-- Character-wise lowercasing, embedding `str::to_lowercase` as used on
the short ASCII status spellings. -/
def strToLower (s : String) : String :=
  String.mk (s.data.map Char.toLower)

/-- `impl FromStr for Status` (`src/index.rs` lines 32-43): lowercase the
input and accept exactly "todo", "doing", "done". -/
def Status.from_str (s : String) : Except String Status :=
  match strToLower s with
  | "todo" => Except.ok Status.Todo
  | "doing" => Except.ok Status.Doing
  | "done" => Except.ok Status.Done
  | other => Except.error ("invalid status " ++ other)

/-- A word is a tag marker iff it starts and ends with `:`
(`w.starts_with(':') && w.ends_with(':')` in `TaskDetail::new`), stated on
the character sequence. -/
def isTagWord (w : String) : Bool :=
  (w.data.head? == some ':') && (w.data.getLast? == some ':')

/-- `TaskDetail::new` (`src/index.rs` lines 108-131): summary joins the
non-tag words with single spaces, tags take, for each tag word, the
characters after the leading `:` up to the next `:`
(`e.chars().skip(1).take_while(|c| *c != ':')`); description starts
empty. -/
def TaskDetail.new (task_id : Nat) (entry : List String) : TaskDetail :=
  let summary_entries := entry.filter (fun w => !(isTagWord w))
  let summary := String.intercalate (" ") summary_entries
  let tags := entry.filterMap (fun e =>
    if isTagWord e then
      some (String.mk ((e.data.drop 1).takeWhile (fun c => c != ':')))
    else
      none)
  { id := task_id, summary := summary, description := "", tags := tags }

/-- `Index::new`: fresh empty index (the `Result` wrapper in the source
never fails, so it is dropped). -/
def Index.new (name : String) : Index :=
  { meta := { name := name }, tasks := [] }

/-- `Index::save` (`src/index.rs` lines 171-181): if the index file exists
and `force` is false, fail with `PmError::IndexExists` without writing;
otherwise write the serialized index to the canonical path. -/
def Index.save (i : Index) (force : Bool) (fs : FS) : FS × Except AppError Unit :=
  if fs.indexFile.isSome && !force then
    (fs, Except.error (AppError.pm PmError.IndexExists))
  else
    ({ fs with indexFile := some i }, Except.ok ())

/-- `Index::next_id` (`src/index.rs` lines 292-294):
`self.tasks.iter().map(|t| t.id).max().unwrap_or(0) + 1`. -/
def Index.next_id (i : Index) : Nat :=
  ((i.tasks.map Task.id).max?).getD 0 + 1

/-- The in-memory part of `Index::create_task` (`src/index.rs` lines
191-211): push a fresh task with the next id, status `Todo`, a single
`None → Todo` change and no priority. (The subsequent `save(true)` and
detail save are filesystem writes; `save(true)` never hits the existence
guard.) -/
def Index.create_task (i : Index) (now : Nat) : Index :=
  let task : Task :=
    { id := i.next_id
      status := Status.Todo
      changes := [{ «from» := Status.None, «to» := Status.Todo, «on» := now }]
      priority := none }
  { i with tasks := i.tasks ++ [task] }

/-- `Index::get_task` (`src/index.rs` lines 213-221): first task with the
given id, if any. -/
def Index.get_task (i : Index) (task_id : Nat) : Option Task :=
  i.tasks.find? (fun t => t.id == task_id)

/-- The loop body of `Index::move_task` applied to the matching task: if
the status is unchanged do nothing, otherwise append the change and update
the status. -/
def applyMove (t : Task) (new_status : Status) (now : Nat) : Task :=
  if t.status == new_status then t
  else
    { t with
      changes := t.changes ++ [{ «from» := t.status, «to» := new_status, «on» := now }]
      status := new_status }

/-- The `for task in self.tasks.iter_mut()` loop of `Index::move_task`:
update the first task with the matching id (then break), and report
whether one was found. -/
def moveInTasks (tasks : List Task) (task_id : Nat) (new_status : Status) (now : Nat) :
    List Task × Bool :=
  match tasks with
  | [] => ([], false)
  | t :: ts =>
    if t.id == task_id then (applyMove t new_status now :: ts, true)
    else
      let r := moveInTasks ts task_id new_status now
      (t :: r.1, r.2)

/-- The in-memory part of `Index::move_task` (`src/index.rs` lines
223-251): update the first matching task (no-op when the status is
unchanged), error when no task has the id. -/
def Index.move_task (i : Index) (task_id : Nat) (new_status : Status) (now : Nat) :
    Except AppError Index :=
  let r := moveInTasks i.tasks task_id new_status now
  if r.2 then Except.ok { i with tasks := r.1 }
  else Except.error (AppError.eyre ("could not find task"))

/-- `std::fs::remove_file` on a detail path: succeeds (removing the file)
iff the file exists. -/
def removeFile (fs : FS) (task_id : Nat) : FS × Except AppError Unit :=
  if fs.details.contains task_id then
    ({ fs with details := fs.details.erase task_id }, Except.ok ())
  else
    (fs, Except.error (AppError.eyre ("deleting file")))

/-- The `if let Some(idx) = self.tasks.iter().position(..)` removal in
`Index::delete_task`: drop the first entry with the matching id, if any. -/
def removeEntry (tasks : List Task) (task_id : Nat) : List Task :=
  match tasks.findIdx? (fun t => t.id == task_id) with
  | some idx => tasks.eraseIdx idx
  | none => tasks

/-- `Index::delete_task` (`src/index.rs` lines 253-262): delete the detail
file first and return its error (leaving the task list untouched) if that
fails; otherwise remove the matching entry (if any) and save the index
with `force = true`. -/
def Index.delete_task (i : Index) (task_id : Nat) (fs : FS) :
    Index × FS × Except AppError Unit :=
  match removeFile fs task_id with
  | (fs1, Except.error e) => (i, fs1, Except.error e)
  | (fs1, Except.ok _) =>
    let i' : Index := { i with tasks := removeEntry i.tasks task_id }
    let r := i'.save true fs1
    (i', r.1, r.2)

/-- The comparator closure passed to `sort_by` in
`Index::sorted_tasks_with_status` (`src/index.rs` lines 282-287). -/
def taskCmp (a b : Task) : Ordering :=
  match a.priority, b.priority with
  | some pa, some pb => compare pa pb
  | some _, none => Ordering.gt
  | none, some _ => Ordering.lt
  | none, none => compare a.id b.id

/-- `a` may precede `b` in the output of `sort_by taskCmp`: the comparator
does not say `Greater`. -/
def taskLE (a b : Task) : Bool :=
  match taskCmp a b with
  | Ordering.gt => false
  | _ => true

/-- `Index::sorted_tasks_with_status` (`src/index.rs` lines 271-290):
filter to the given status, return `none` when empty, otherwise the
filtered tasks stably sorted by the comparator. -/
def Index.sorted_tasks_with_status (i : Index) (status : Status) : Option (List Task) :=
  let ts := i.tasks.filter (fun t => t.status == status)
  if ts.isEmpty then none
  else some (ts.mergeSort taskLE)

/-- The history invariant of the spec: the last change's `to` equals the
current status, and the first change is `None → Todo`. -/
def Task.historyInv (t : Task) : Prop :=
  (t.changes.getLast?).map Change.«to» = some t.status ∧
  (t.changes.head?).map (fun c => (c.«from», c.«to»)) = some (Status.None, Status.Todo)

instance (t : Task) : Decidable t.historyInv := by
  unfold Task.historyInv
  exact instDecidableAnd

/-- Left fold of `create_task` over a list of creation timestamps: `n`
successive `createTask` calls. -/
def iterCreate (i : Index) : List Nat → Index
  | [] => i
  | now :: rest => iterCreate (i.create_task now) rest

/-- In-memory index states reachable from a fresh index by `create_task`,
successful `move_task` (target status unrestricted, as in the source) and
the entry removal performed by a successful `delete_task`. -/
inductive Reachable : Index → Prop where
  | init (name : String) : Reachable (Index.new name)
  | create (i : Index) (now : Nat) : Reachable i → Reachable (i.create_task now)
  | move (i : Index) (task_id : Nat) (new_status : Status) (now : Nat) (i' : Index) :
      Reachable i → i.move_task task_id new_status now = Except.ok i' → Reachable i'
  | delete (i : Index) (task_id : Nat) :
      Reachable i → Reachable { i with tasks := removeEntry i.tasks task_id }

/-- Same reachable states, but with `move_task` restricted to the
non-sentinel target statuses, as the spec intends for callers. -/
inductive ReachableChecked : Index → Prop where
  | init (name : String) : ReachableChecked (Index.new name)
  | create (i : Index) (now : Nat) : ReachableChecked i → ReachableChecked (i.create_task now)
  | move (i : Index) (task_id : Nat) (new_status : Status) (now : Nat) (i' : Index) :
      ReachableChecked i → new_status ≠ Status.None →
      i.move_task task_id new_status now = Except.ok i' → ReachableChecked i'
  | delete (i : Index) (task_id : Nat) :
      ReachableChecked i → ReachableChecked { i with tasks := removeEntry i.tasks task_id }

/-- Propositional reading of `taskLE`: priority presence first (absent
before present), then priority value, then id. -/
def keyLE (a b : Task) : Prop :=
  match a.priority, b.priority with
  | some pa, some pb => pa ≤ pb
  | some _, none => False
  | none, some _ => True
  | none, none => a.id ≤ b.id

/-- Space-joining written the way the spec reads: words joined pairwise
with single spaces. -/
def specJoin : List String → String
  | [] => ""
  | [w] => w
  | w :: v :: ws => w ++ (" ") ++ specJoin (v :: ws)

/-- Tail of a space-join: a leading separator before every remaining
word. -/
def specJoinAux : List String → String
  | [] => ""
  | w :: ws => (" ") ++ w ++ specJoinAux ws

/-- The characters before the first `:`, written by plain recursion. -/
def takeUntilColon : List Char → List Char
  | [] => []
  | c :: cs => if c = ':' then [] else c :: takeUntilColon cs

/-- Tag derivation as the code performs it, written independently: for
each tag word, the characters after the leading `:` up to the next `:`. -/
def tagsUpToColon : List String → List String
  | [] => []
  | w :: ws =>
    if isTagWord w then String.mk (takeUntilColon (w.data.drop 1)) :: tagsUpToColon ws
    else tagsUpToColon ws

/-- Modelled from the spec's words for the claimed tag rule: a tag word
with "leading and trailing marker characters stripped", i.e. the word
without its first and last character. -/
def specStripMarkers (w : String) : String :=
  String.mk ((w.data.drop 1).dropLast)

/-- Tags as the claim describes them: each marker-bounded word with the
two delimiter characters stripped, in input order. -/
def specTags (entry : List String) : List String :=
  entry.filterMap (fun w => if isTagWord w then some (specStripMarkers w) else none)

/-! Concrete fixtures used by counterexamples and witnesses. -/

/-- A `Done` task with priority 100 (the repo test's task 1). -/
def taskP : Task :=
  { id := 1, status := Status.Done, changes := [], priority := some 100 }

/-- A `Done` task without priority (the repo test's task 2). -/
def taskNP : Task :=
  { id := 2, status := Status.Done, changes := [], priority := none }

/-- The index of the repo's `task_sorting_with_priorities` test. -/
def idxPrio : Index :=
  { meta := { name := "Foo" }, tasks := [taskP, taskNP] }

/-- The task produced by `create_task` at time 0 and then moved to the
sentinel `None` at time 1. -/
def badTask : Task :=
  { id := 1
    status := Status.None
    changes := [{ «from» := Status.None, «to» := Status.Todo, «on» := 0 },
                { «from» := Status.Todo, «to» := Status.None, «on» := 1 }]
    priority := none }

/-- The reachable index holding `badTask`. -/
def badIdx : Index :=
  { meta := { name := "p" }, tasks := [badTask] }

/-- The task produced by `create_task` at time 0 and then moved to
`Doing` at time 1. -/
def goodTask : Task :=
  { id := 1
    status := Status.Doing
    changes := [{ «from» := Status.None, «to» := Status.Todo, «on» := 0 },
                { «from» := Status.Todo, «to» := Status.Doing, «on» := 1 }]
    priority := none }

/-- The checked-reachable index holding `goodTask`. -/
def goodIdx : Index :=
  { meta := { name := "p" }, tasks := [goodTask] }

/-- A one-task index used by the no-op-move and deletion witnesses. -/
def idxW : Index :=
  { meta := { name := "w" }, tasks := [goodTask] }

/-- A filesystem with no index file and no detail files. -/
def fsEmpty : FS :=
  { indexFile := none, details := [] }

/-- A filesystem already holding an index file, plus the detail file of
task 1. -/
def fsW : FS :=
  { indexFile := some idxW, details := [1] }

/-! ## The sort comparator -/

theorem notGt_compare_eq_true_iff (x y : Nat) :
    (match compare x y with | Ordering.gt => false | _ => true) = true ↔ x ≤ y := by
  rcases h : compare x y with _ | _ | _ <;> simp only [h]
  · simpa using Nat.le_of_lt (Nat.compare_eq_lt.mp h)
  · simpa using Nat.le_of_eq (Nat.compare_eq_eq.mp h)
  · have := Nat.compare_eq_gt.mp h
    simp only [Bool.false_eq_true, false_iff]
    omega

theorem taskLE_eq_true_iff (a b : Task) : taskLE a b = true ↔ keyLE a b := by
  unfold taskLE taskCmp keyLE
  rcases ha : a.priority with _ | pa <;> rcases hb : b.priority with _ | pb <;>
      simp only [ha, hb]
  all_goals first
    | exact notGt_compare_eq_true_iff _ _
    | simp

theorem taskLE_total (a b : Task) : taskLE a b || taskLE b a := by
  rw [Bool.or_eq_true, taskLE_eq_true_iff, taskLE_eq_true_iff]
  unfold keyLE
  rcases ha : a.priority with _ | pa <;> rcases hb : b.priority with _ | pb <;>
      simp <;> omega

theorem taskLE_trans (a b c : Task) : taskLE a b → taskLE b c → taskLE a c := by
  intro h1 h2
  rw [taskLE_eq_true_iff] at h1 h2 ⊢
  unfold keyLE at h1 h2 ⊢
  rcases ha : a.priority with _ | pa <;> rcases hb : b.priority with _ | pb <;>
      rcases hc : c.priority with _ | pc <;> simp_all <;> omega

/-- Any list returned by `sorted_tasks_with_status` is sorted with respect
to the comparator (no adjacent or distant pair compares `Greater`). -/
theorem sorted_tasks_pairwise (i : Index) (st : Status) (out : List Task)
    (h : i.sorted_tasks_with_status st = some out) :
    out.Pairwise (fun a b => taskLE a b = true) := by
  simp only [Index.sorted_tasks_with_status] at h
  by_cases he : (i.tasks.filter (fun t => t.status == st)).isEmpty
  · rw [if_pos he] at h
    exact absurd h (by simp)
  · rw [if_neg he] at h
    obtain rfl : (i.tasks.filter (fun t => t.status == st)).mergeSort taskLE = out :=
      Option.some.inj h
    simpa using List.sorted_mergeSort
      (fun a b c => taskLE_trans a b c) taskLE_total
      (i.tasks.filter (fun t => t.status == st))

unseal List.merge List.mergeSort in
theorem idxPrio_sorted_eval :
    idxPrio.sorted_tasks_with_status Status.Done = some [taskNP, taskP] := by
  decide

/-- C1, as stated, is false on the code: in the index of the repo's own
`task_sorting_with_priorities` test, sorting the `Done` tasks places the
priority-less task (id 2) before the task with priority 100 (id 1), so a
task with a priority does not precede a task without one. -/
theorem sorted_tasks_prioritized_first_refuted :
    idxPrio.sorted_tasks_with_status Status.Done = some [taskNP, taskP] ∧
    taskNP.priority = none ∧ taskP.priority = some 100 ∧
    ¬ [taskNP, taskP].Pairwise (fun a b => ¬(a.priority = none ∧ b.priority ≠ none)) := by
  refine ⟨idxPrio_sorted_eval, rfl, rfl, ?_⟩
  intro hpw
  have h1 := List.rel_of_pairwise_cons hpw (List.mem_singleton.mpr rfl)
  exact h1 ⟨rfl, by simp [taskP]⟩

/-- C1 amended: in the result of `sorted_tasks_with_status`, for every two
tasks where one has a priority and the other does not, the task WITHOUT a
priority is placed before the task with one, regardless of the numeric
value of that priority. -/
theorem sorted_tasks_unprioritized_first (i : Index) (st : Status) (out : List Task)
    (h : i.sorted_tasks_with_status st = some out) :
    out.Pairwise (fun a b => ¬(a.priority ≠ none ∧ b.priority = none)) := by
  refine (sorted_tasks_pairwise i st out h).imp ?_
  intro a b hab
  rw [taskLE_eq_true_iff] at hab
  unfold keyLE at hab
  rintro ⟨hsome, hnone⟩
  rcases ha : a.priority with _ | pa
  · exact hsome ha
  · simp only [ha, hnone] at hab

/-- C1 amended, witness: the amended ordering at the concrete sorted
output of `idxPrio`. -/
theorem sorted_tasks_unprioritized_first_witness :
    [taskNP, taskP].Pairwise (fun a b => ¬(a.priority ≠ none ∧ b.priority = none)) :=
  sorted_tasks_unprioritized_first idxPrio Status.Done [taskNP, taskP] idxPrio_sorted_eval

/-- C2: in the result of `sorted_tasks_with_status`, two tasks that both
have a priority appear in ascending order of priority value, and two
tasks that both lack one appear in ascending order of id. -/
theorem sorted_tasks_ascending_within_groups (i : Index) (st : Status) (out : List Task)
    (h : i.sorted_tasks_with_status st = some out) :
    out.Pairwise (fun a b =>
      (∀ pa pb, a.priority = some pa → b.priority = some pb → pa ≤ pb) ∧
      (a.priority = none → b.priority = none → a.id ≤ b.id)) := by
  refine (sorted_tasks_pairwise i st out h).imp ?_
  intro a b hab
  rw [taskLE_eq_true_iff] at hab
  unfold keyLE at hab
  constructor
  · intro pa pb hpa hpb
    simpa only [hpa, hpb] using hab
  · intro hpa hpb
    simpa only [hpa, hpb] using hab

/-- C2, witness: the pairwise ordering at the concrete sorted output of
`idxPrio`. -/
theorem sorted_tasks_ascending_within_groups_witness :
    [taskNP, taskP].Pairwise (fun a b =>
      (∀ pa pb, a.priority = some pa → b.priority = some pb → pa ≤ pb) ∧
      (a.priority = none → b.priority = none → a.id ≤ b.id)) :=
  sorted_tasks_ascending_within_groups idxPrio Status.Done [taskNP, taskP] idxPrio_sorted_eval

/-! ## History invariant and reachable states -/

theorem applyMove_historyInv (t : Task) (st : Status) (now : Nat) (h : t.historyInv) :
    (applyMove t st now).historyInv := by
  unfold applyMove
  by_cases hs : t.status == st
  · rw [if_pos hs]
    exact h
  · rw [if_neg hs]
    obtain ⟨h1, h2⟩ := h
    constructor
    · simp [List.getLast?_concat]
    · rcases hc : t.changes with _ | ⟨c0, cs⟩
      · rw [hc] at h1
        simp at h1
      · rw [hc] at h2
        simpa using h2

theorem mem_moveInTasks {ts : List Task} {task_id : Nat} {st : Status} {now : Nat} {t' : Task}
    (h : t' ∈ (moveInTasks ts task_id st now).1) :
    t' ∈ ts ∨ ∃ t ∈ ts, t' = applyMove t st now := by
  induction ts with
  | nil => simp [moveInTasks] at h
  | cons t ts ih =>
    rw [moveInTasks] at h
    split at h
    · simp only [List.mem_cons] at h
      rcases h with h1 | h1
      · exact Or.inr ⟨t, List.mem_cons_self t ts, h1⟩
      · exact Or.inl (List.mem_cons_of_mem t h1)
    · simp only [List.mem_cons] at h
      rcases h with h1 | h1
      · exact Or.inl (h1 ▸ List.mem_cons_self t ts)
      · rcases ih h1 with h2 | ⟨u, hu, hu2⟩
        · exact Or.inl (List.mem_cons_of_mem t h2)
        · exact Or.inr ⟨u, List.mem_cons_of_mem t hu, hu2⟩

/-- C3: the history invariant (`changes.last().to == status` and
`changes[0] == {from: None, to: Todo}`) holds for every task after
`create_task` and is preserved by every `move_task` call, starting from
any index whose tasks all satisfy it. -/
theorem history_invariant_preserved (i : Index)
    (hinv : ∀ t ∈ i.tasks, t.historyInv) :
    (∀ now, ∀ t ∈ (i.create_task now).tasks, t.historyInv) ∧
    (∀ task_id new_status now i',
      i.move_task task_id new_status now = Except.ok i' →
      ∀ t ∈ i'.tasks, t.historyInv) := by
  constructor
  · intro now t ht
    simp only [Index.create_task] at ht
    rcases List.mem_append.mp ht with h1 | h1
    · exact hinv t h1
    · simp only [List.mem_singleton] at h1
      subst h1
      exact ⟨rfl, rfl⟩
  · intro task_id new_status now i' hmv t ht
    simp only [Index.move_task] at hmv
    split at hmv
    · obtain rfl := Except.ok.inj hmv
      rcases mem_moveInTasks ht with h1 | ⟨u, hu, rfl⟩
      · exact hinv t h1
      · exact applyMove_historyInv u new_status now (hinv u hu)
    · exact absurd hmv (by simp)

/-- C3, witness: the task created at time 0 and moved to `Doing` at time 1
satisfies the history invariant. -/
theorem history_invariant_preserved_witness : goodTask.historyInv :=
  (history_invariant_preserved ((Index.new ("p")).create_task 0) (by decide)).2
    1 Status.Doing 1 goodIdx rfl goodTask (by decide)

theorem status_of_applyMove (t : Task) (st : Status) (now : Nat) :
    (applyMove t st now).status = t.status ∨ (applyMove t st now).status = st := by
  unfold applyMove
  split
  · exact Or.inl rfl
  · exact Or.inr rfl

theorem mem_removeEntry {ts : List Task} {task_id : Nat} {t : Task}
    (h : t ∈ removeEntry ts task_id) : t ∈ ts := by
  unfold removeEntry at h
  split at h
  · exact (List.eraseIdx_sublist ts _).subset h
  · exact h

/-- C4, as stated, is false on the code: `move_task` accepts the sentinel
`None` as a target, so the index holding a task whose current status is
`None` is reachable by `create_task` at time 0 followed by
`move_task 1 None` at time 1. -/
theorem reachable_status_none_refuted :
    Reachable badIdx ∧ ∃ t ∈ badIdx.tasks, t.status = Status.None := by
  constructor
  · exact Reachable.move ((Index.new ("p")).create_task 0) 1 Status.None 1 badIdx
      (Reachable.create (Index.new ("p")) 0 (Reachable.init ("p"))) rfl
  · exact ⟨badTask, by decide, rfl⟩

/-- C4 amended: if every `move_task` call uses a target other than the
sentinel `None` (the restriction the spec assigns to callers), then no
reachable index contains a task whose current status is `None`. -/
theorem reachable_no_status_none (i : Index) (h : ReachableChecked i) :
    ∀ t ∈ i.tasks, t.status ≠ Status.None := by
  induction h with
  | init name =>
    intro t ht
    simp [Index.new] at ht
  | create i now _ ih =>
    intro t ht
    simp only [Index.create_task] at ht
    rcases List.mem_append.mp ht with h1 | h1
    · exact ih t h1
    · simp only [List.mem_singleton] at h1
      subst h1
      simp
  | move i task_id new_status now i' _ hst heq ih =>
    intro t ht
    simp only [Index.move_task] at heq
    split at heq
    · obtain rfl := Except.ok.inj heq
      rcases mem_moveInTasks ht with h1 | ⟨u, hu, rfl⟩
      · exact ih t h1
      · rcases status_of_applyMove u new_status now with h2 | h2
        · rw [h2]
          exact ih u hu
        · rw [h2]
          exact hst
    · exact absurd heq (by simp)
  | delete i task_id _ ih =>
    intro t ht
    exact ih t (mem_removeEntry ht)

/-- C4 amended, witness: the task created and then moved to `Doing` does
not have status `None`. -/
theorem reachable_no_status_none_witness : goodTask.status ≠ Status.None :=
  reachable_no_status_none goodIdx
    (ReachableChecked.move ((Index.new ("p")).create_task 0) 1 Status.Doing 1 goodIdx
      (ReachableChecked.create (Index.new ("p")) 0 (ReachableChecked.init ("p")))
      (by decide) rfl)
    goodTask (by decide)

/-! ## Id allocation -/

theorem max?_getD_zero_concat (l : List Nat) (x : Nat) :
    ((l ++ [x]).max?).getD 0 = max ((l.max?).getD 0) x := by
  cases l with
  | nil => simp [List.max?]
  | cons a as =>
    rw [List.cons_append, List.max?_cons', List.max?_cons', List.foldl_append]
    rfl

theorem range'_max?_getD (k : Nat) : ((List.range' 1 k).max?).getD 0 = k := by
  induction k with
  | zero => rfl
  | succ k ih =>
    rw [List.range'_1_concat, max?_getD_zero_concat, ih]
    omega

theorem create_task_ids (i : Index) (now : Nat) :
    (i.create_task now).tasks.map Task.id = i.tasks.map Task.id ++ [i.next_id] := by
  simp [Index.create_task]

theorem next_id_of_range (i : Index) (k : Nat) (h : i.tasks.map Task.id = List.range' 1 k) :
    i.next_id = k + 1 := by
  unfold Index.next_id
  rw [h, range'_max?_getD]

theorem iterCreate_ids (times : List Nat) (i : Index) (k : Nat)
    (h : i.tasks.map Task.id = List.range' 1 k) :
    (iterCreate i times).tasks.map Task.id = List.range' 1 (k + times.length) := by
  induction times generalizing i k with
  | nil => simpa using h
  | cons now rest ih =>
    rw [iterCreate]
    have h2 : (i.create_task now).tasks.map Task.id = List.range' 1 (k + 1) := by
      rw [create_task_ids, h, next_id_of_range i k h, List.range'_1_concat]
      simp [Nat.add_comm]
    rw [ih (i.create_task now) (k + 1) h2]
    congr 1
    simp only [List.length_cons]
    omega

/-- C5: `next_id` is 1 when the task list is empty and `max + 1`
otherwise (with `m` the greatest existing id), and any run of
`create_task` calls from a fresh index allocates ids `1, 2, …, n` in
creation order. -/
theorem next_id_spec_and_monotone_ids (i : Index) (name : String) (times : List Nat) :
    (i.tasks = [] → i.next_id = 1) ∧
    (i.tasks ≠ [] → ∃ m ∈ i.tasks.map Task.id,
      (∀ x ∈ i.tasks.map Task.id, x ≤ m) ∧ i.next_id = m + 1) ∧
    (iterCreate (Index.new name) times).tasks.map Task.id = List.range' 1 times.length := by
  refine ⟨?_, ?_, ?_⟩
  · intro h
    simp [Index.next_id, h]
  · intro h
    rcases hm : (i.tasks.map Task.id).max? with _ | m
    · rw [List.max?_eq_none_iff] at hm
      simp only [List.map_eq_nil_iff] at hm
      exact absurd hm h
    · refine ⟨m, List.max?_mem (fun a b => by omega) hm, ?_, ?_⟩
      · intro x hx
        exact ((List.max?_le_iff (fun a b c => by omega) hm).mp (Nat.le_refl m)) x hx
      · simp [Index.next_id, hm]
  · simpa using iterCreate_ids times (Index.new name) 0 (by simp [Index.new])

/-- C5, witness: a fresh index allocates 1 first, and three creations
allocate ids 1, 2, 3. -/
theorem next_id_spec_and_monotone_ids_witness :
    (Index.new ("w")).next_id = 1 ∧
    (iterCreate (Index.new ("w")) [10, 20, 30]).tasks.map Task.id = List.range' 1 3 :=
  ⟨(next_id_spec_and_monotone_ids (Index.new ("w")) ("w") []).1 rfl,
   (next_id_spec_and_monotone_ids (Index.new ("w")) ("w") [10, 20, 30]).2.2⟩

/-! ## No-op moves, the save guard, and deletion -/

theorem moveInTasks_of_find?_self {ts : List Task} {task_id : Nat} {t : Task} (now : Nat)
    (h : ts.find? (fun u => u.id == task_id) = some t) :
    moveInTasks ts task_id t.status now = (ts, true) := by
  induction ts with
  | nil => simp at h
  | cons a as ih =>
    rw [moveInTasks]
    by_cases hid : a.id == task_id
    · rw [if_pos hid]
      rw [List.find?_cons_of_pos (p := fun u => u.id == task_id) as hid] at h
      obtain rfl := Option.some.inj h
      unfold applyMove
      rw [if_pos (by simp)]
    · rw [if_neg hid]
      rw [List.find?_cons_of_neg (p := fun u => u.id == task_id) as hid] at h
      simp [ih h]

/-- C6: moving a task to its current status succeeds and is a complete
no-op on the task data: the resulting index is the input index itself, so
no history entry is appended and the status is unchanged. -/
theorem move_task_same_status_noop (i : Index) (task_id : Nat) (t : Task) (now : Nat)
    (h : i.get_task task_id = some t) :
    i.move_task task_id t.status now = Except.ok i := by
  unfold Index.get_task at h
  have h2 := moveInTasks_of_find?_self now h
  simp [Index.move_task, h2]

/-- C6, witness: moving task 1 of `idxW` to its current status at time 5
returns `idxW` unchanged. -/
theorem move_task_same_status_noop_witness :
    idxW.move_task 1 goodTask.status 5 = Except.ok idxW :=
  move_task_same_status_noop idxW 1 goodTask 5 rfl

/-- C7: `save` with `force = false` while an index file exists fails with
`IndexExists` and performs no write (the filesystem, including the
existing file content, is returned untouched); with `force = true`, or
when no index file exists, the serialized index is written. -/
theorem save_existence_guard (i i0 : Index) (fs : FS) :
    (fs.indexFile = some i0 →
      i.save false fs = (fs, Except.error (AppError.pm PmError.IndexExists))) ∧
    (i.save true fs = ({ fs with indexFile := some i }, Except.ok ())) ∧
    (fs.indexFile = none →
      i.save false fs = ({ fs with indexFile := some i }, Except.ok ())) := by
  refine ⟨?_, ?_, ?_⟩
  · intro h
    simp [Index.save, h]
  · simp [Index.save]
  · intro h
    simp [Index.save, h]

/-- C7, witness: the guard and both write cases at concrete
filesystems. -/
theorem save_existence_guard_witness :
    idxW.save false fsW = (fsW, Except.error (AppError.pm PmError.IndexExists)) ∧
    idxW.save true fsW = ({ fsW with indexFile := some idxW }, Except.ok ()) ∧
    idxW.save false fsEmpty = ({ fsEmpty with indexFile := some idxW }, Except.ok ()) :=
  ⟨(save_existence_guard idxW idxW fsW).1 rfl,
   (save_existence_guard idxW idxW fsW).2.1,
   (save_existence_guard idxW idxW fsEmpty).2.2 rfl⟩

theorem find?_eq_none_findIdx? {ts : List Task} {task_id : Nat}
    (h : ts.find? (fun t => t.id == task_id) = none) :
    ts.findIdx? (fun t => t.id == task_id) = none := by
  rw [List.find?_eq_none] at h
  rw [List.findIdx?_eq_none_iff]
  intro x hx
  simpa using h x hx

/-- C8: `delete_task` deletes the detail file before touching the task
list: if the file deletion fails the in-memory list and filesystem are
returned unchanged with the error; on successful deletion the matching
entry (if any) is removed and the index is saved; a missing index entry
is non-fatal (the removal is the identity and the call still
succeeds). -/
theorem delete_task_order_and_errors (i : Index) (task_id : Nat) (fs : FS) :
    (fs.details.contains task_id = false →
      ∃ e, i.delete_task task_id fs = (i, fs, Except.error e)) ∧
    (fs.details.contains task_id = true →
      i.delete_task task_id fs =
        ({ i with tasks := removeEntry i.tasks task_id },
         { indexFile := some { i with tasks := removeEntry i.tasks task_id },
           details := fs.details.erase task_id },
         Except.ok ())) ∧
    (i.get_task task_id = none → removeEntry i.tasks task_id = i.tasks) := by
  refine ⟨?_, ?_, ?_⟩
  · intro h
    have hm : ¬ task_id ∈ fs.details := by simpa using h
    refine ⟨AppError.eyre ("deleting file"), ?_⟩
    simp [Index.delete_task, removeFile, hm]
  · intro h
    have hm : task_id ∈ fs.details := by simpa using h
    simp [Index.delete_task, removeFile, hm, Index.save]
  · intro h
    unfold Index.get_task at h
    unfold removeEntry
    rw [find?_eq_none_findIdx? h]

/-- C8, witness: deletion with a missing detail file fails and leaves the
index alone; deletion with the detail file present removes entry and
file and saves. -/
theorem delete_task_order_and_errors_witness :
    (∃ e, idxW.delete_task 1 fsEmpty = (idxW, fsEmpty, Except.error e)) ∧
    idxW.delete_task 1 fsW =
      ({ idxW with tasks := removeEntry idxW.tasks 1 },
       { indexFile := some { idxW with tasks := removeEntry idxW.tasks 1 },
         details := fsW.details.erase 1 },
       Except.ok ()) :=
  ⟨(delete_task_order_and_errors idxW 1 fsEmpty).1 rfl,
   (delete_task_order_and_errors idxW 1 fsW).2.1 rfl⟩

/-! ## Task detail derivation and status parsing -/

theorem intercalate_go_eq (as : List String) (acc : String) :
    String.intercalate.go acc (" ") as = acc ++ specJoinAux as := by
  induction as generalizing acc with
  | nil => simp [String.intercalate.go, specJoinAux]
  | cons a as ih =>
    rw [String.intercalate.go, specJoinAux, ih]
    simp [String.append_assoc]

theorem specJoinAux_eq (a : String) (as : List String) :
    a ++ specJoinAux as = specJoin (a :: as) := by
  induction as generalizing a with
  | nil => simp [specJoinAux, specJoin]
  | cons b bs ih =>
    rw [specJoinAux, specJoin, ← ih b]
    simp [String.append_assoc]

theorem intercalate_eq_specJoin (l : List String) :
    String.intercalate (" ") l = specJoin l := by
  cases l with
  | nil => rfl
  | cons a as => rw [String.intercalate, intercalate_go_eq, specJoinAux_eq]

theorem takeWhile_neColon_eq (cs : List Char) :
    cs.takeWhile (fun c => c != ':') = takeUntilColon cs := by
  induction cs with
  | nil => rfl
  | cons c cs ih =>
    rw [List.takeWhile_cons, takeUntilColon]
    by_cases hc : c = ':'
    · subst hc
      simp
    · simp [hc, ih]

theorem filterMap_tags_eq (entry : List String) :
    entry.filterMap (fun e =>
        if isTagWord e then
          some (String.mk ((e.data.drop 1).takeWhile (fun c => c != ':')))
        else none)
      = tagsUpToColon entry := by
  induction entry with
  | nil => rfl
  | cons w ws ih =>
    rw [tagsUpToColon]
    by_cases hw : isTagWord w
    · rw [List.filterMap_cons_some (by rw [if_pos hw]), if_pos hw,
        takeWhile_neColon_eq, ih]
    · rw [List.filterMap_cons_none (by rw [if_neg hw]), if_neg hw, ih]

/-- C9, as stated, is refuted on words with an interior marker character:
for the single entry word ":a:b:", the code derives the tag "a" (the
characters up to the next marker), while stripping only the leading and
trailing markers would give "a:b". -/
theorem task_detail_tags_strip_refuted :
    (TaskDetail.new 0 [(":a:b:")]).tags = [("a")] ∧
    specTags [(":a:b:")] = [("a:b")] ∧
    (TaskDetail.new 0 [(":a:b:")]).tags ≠ specTags [(":a:b:")] := by
  refine ⟨?_, ?_, ?_⟩ <;> decide

/-- C9 amended: the summary is the space-join of exactly the words that
are not marker-bounded, in input order; the tags are, for each
marker-bounded word in input order, the characters after the leading
marker up to (not including) the first subsequent marker character; the
description starts empty. -/
theorem task_detail_new_spec (task_id : Nat) (entry : List String) :
    (TaskDetail.new task_id entry).summary
        = specJoin (entry.filter (fun w => !(isTagWord w))) ∧
    (TaskDetail.new task_id entry).tags = tagsUpToColon entry ∧
    (TaskDetail.new task_id entry).description = ("") ∧
    (TaskDetail.new task_id entry).id = task_id :=
  ⟨intercalate_eq_specJoin (entry.filter (fun w => !(isTagWord w))),
   filterMap_tags_eq entry, rfl, rfl⟩

/-- C10: parsing a status string succeeds exactly on the case-insensitive
spellings of "todo", "doing" and "done" (yielding the matching status),
fails on everything else, and can never yield the `None` sentinel. -/
theorem status_from_str_spec (s : String) :
    (Status.from_str s = Except.ok Status.Todo ↔ strToLower s = ("todo")) ∧
    (Status.from_str s = Except.ok Status.Doing ↔ strToLower s = ("doing")) ∧
    (Status.from_str s = Except.ok Status.Done ↔ strToLower s = ("done")) ∧
    ((∃ st, Status.from_str s = Except.ok st) ↔
      strToLower s = ("todo") ∨ strToLower s = ("doing") ∨ strToLower s = ("done")) ∧
    (∀ st, Status.from_str s = Except.ok st → st ≠ Status.None) := by
  unfold Status.from_str
  split <;> simp_all

/-- C10, witness: the three spellings parse (case-insensitively), and
neither "None" nor "none" parses, so the sentinel is unreachable from
user input. -/
theorem status_from_str_spec_witness :
    Status.from_str ("TODO") = Except.ok Status.Todo ∧
    Status.from_str ("DoInG") = Except.ok Status.Doing ∧
    Status.from_str ("done") = Except.ok Status.Done ∧
    ¬ (∃ st, Status.from_str ("None") = Except.ok st) ∧
    ¬ (∃ st, Status.from_str ("none") = Except.ok st) :=
  ⟨(status_from_str_spec ("TODO")).1.mpr (by decide),
   (status_from_str_spec ("DoInG")).2.1.mpr (by decide),
   (status_from_str_spec ("done")).2.2.1.mpr (by decide),
   fun h => by
     have h2 := (status_from_str_spec ("None")).2.2.2.1.mp h
     revert h2
     decide,
   fun h => by
     have h2 := (status_from_str_spec ("none")).2.2.2.1.mp h
     revert h2
     decide⟩

end GitPm
